/-
Verification of the pyzenkit `zendaemon` module: event queue manager,
statistics derivation, event-loop dispatch and parallel-mode file naming.

The Lean definitions below are shallow embeddings of the Python source in
`pyzenkit/zendaemon.py`.  Wall-clock timestamps (Python floats produced by
`time.time()`) are modelled as rationals, integer counters as `Int`, and
Python strings as Lean `String`.  Fallible Python code (raised exceptions)
is modelled with `Except`.
-/
import Mathlib

deriving instance DecidableEq for Except

namespace Pyzenkit

/-! ### Event queue manager (`EventQueueManager`)

The sequential queue `events` (a `collections.deque` of `(event, args)`
pairs) is a list; the timed queue `events_at` is the backing list of the
`heapq` binary heap of `(tstamp, event, args)` triples.  The `heapq`
push/pop routines (`_siftdown`, `_siftup`) are transcribed verbatim from
CPython's `heapq` module, since the tie-breaking behaviour of `next()`
depends on them. -/

/-- Arguments attached to an event (`args`); `none` models Python `None`. -/
abbrev Args := Option String

/-- A timed queue entry: the `(tstamp, event, args)` tuple pushed by
`schedule_at`. -/
abbrev TEntry := ℚ × String × Args

/-- Default entry used for out-of-range list reads (never reached on the
index ranges the heap routines actually touch). -/
def dfltT : TEntry := ((0 : ℚ), "", none)

/-- Python string comparison `<` (lexicographic on code points), computed on
the character lists underlying the two strings. -/
def lexLt : List Char → List Char → Bool
  | [], [] => false
  | [], _ :: _ => true
  | _ :: _, [] => false
  | a :: as, b :: bs =>
    decide (a < b) || (decide (a = b) && lexLt as bs)

/-- Python `<` on two strings. -/
def pyStrLt (a b : String) : Bool := lexLt a.data b.data

/-- Python `<` on the optional-args component of two entries.  Python only
consults it when timestamps and event names are both equal; comparing
`None` with anything raises `TypeError` there, so no total Boolean value is
observable — we pick `false` for the `none` cases (unreachable in the
developments below) and compare strings otherwise. -/
def argsLt (x y : Args) : Bool :=
  match x, y with
  | some a, some b => pyStrLt a b
  | _, _ => false

/-- Python tuple comparison `(t₁,e₁,a₁) < (t₂,e₂,a₂)`: lexicographic. -/
def entryLt (x y : TEntry) : Bool :=
  decide (x.1 < y.1) ||
    (decide (x.1 = y.1) &&
      (pyStrLt x.2.1 y.2.1 ||
        (decide (x.2.1 = y.2.1) && argsLt x.2.2 y.2.2)))

/-- Loop of CPython `heapq._siftdown(heap, startpos, pos)` with `newitem`
(which the original reads from `heap[pos]`) passed explicitly: bubble
`newitem` up towards the root while it is smaller than its parent.  The
`fuel` argument makes the recursion structural; since `pos` strictly
decreases at each turn, any `fuel ≥ pos` reproduces the Python loop
exactly (at `fuel = 0` we have `pos = 0`, where the loop condition
`startpos < pos` is false and both branches coincide). -/
def siftdownGo (heap : List TEntry) (startpos : Nat) (newitem : TEntry) :
    Nat → Nat → List TEntry
  | pos, fuel + 1 =>
    if startpos < pos then
      let parentpos := (pos - 1) / 2
      let parent := heap.getD parentpos dfltT
      if entryLt newitem parent then
        siftdownGo (heap.set pos parent) startpos newitem parentpos fuel
      else
        heap.set pos newitem
    else
      heap.set pos newitem
  | pos, 0 => heap.set pos newitem

/-- CPython `heapq._siftdown(heap, startpos, pos)` (with the loop fuel
instantiated at its exact bound `pos`). -/
def siftdown (heap : List TEntry) (startpos pos : Nat) (newitem : TEntry) :
    List TEntry :=
  siftdownGo heap startpos newitem pos pos

/-- CPython `heapq.heappush`: append, then sift the new item down to its
place. -/
def heappush (heap : List TEntry) (item : TEntry) : List TEntry :=
  siftdown (heap ++ [item]) 0 heap.length item

/-- Loop of CPython `heapq._siftup`: walk `pos` down the tree, pulling the
smaller child up at each level, until a leaf level is reached; returns the
final position together with the rearranged list (with `newitem` written at
the final position, as the original does just before its closing
`_siftdown` call).  `fuel ≥ endpos - pos` reproduces the Python loop
exactly: `pos` strictly increases, and at `fuel = 0` the loop condition
`2*pos+1 < endpos` is already false. -/
def siftupGo (endpos : Nat) (heap : List TEntry) (newitem : TEntry) :
    Nat → Nat → Nat × List TEntry
  | pos, fuel + 1 =>
    let childpos := 2 * pos + 1
    if childpos < endpos then
      let rightpos := childpos + 1
      let childpos :=
        if rightpos < endpos &&
            !(entryLt (heap.getD childpos dfltT) (heap.getD rightpos dfltT))
        then rightpos else childpos
      siftupGo endpos (heap.set pos (heap.getD childpos dfltT)) newitem
        childpos fuel
    else
      (pos, heap.set pos newitem)
  | pos, 0 => (pos, heap.set pos newitem)

/-- CPython `heapq._siftup(heap, pos)`: move the hole at `pos` to a leaf,
place the item there and sift it down towards the root. -/
def siftup (heap : List TEntry) (pos : Nat) : List TEntry :=
  let newitem := heap.getD pos dfltT
  let r := siftupGo heap.length heap newitem pos heap.length
  siftdown r.2 pos r.1 newitem

/-- CPython `heapq.heappop`: pop the last element; if the heap is still
non-empty, remember the root, move the last element there and sift up.
Python raises `IndexError` on an empty heap; all call sites below guard
non-emptiness, so the empty case returns a junk value. -/
def heappop (heap : List TEntry) : TEntry × List TEntry :=
  match heap.dropLast, heap.getLast? with
  | [], some lastelt => (lastelt, [])
  | r :: rest, some lastelt => (r, siftup (lastelt :: rest) 0)
  | _, none => (dfltT, [])

/-- The two internal stores of `EventQueueManager`: `events` is the FIFO
deque of `(event, args)` pairs, `events_at` the heap list of timed
entries. -/
structure EventQueueManager where
  events : List (String × Args)
  events_at : List TEntry
deriving Repr, DecidableEq

namespace EventQueueManager

/-- The freshly constructed manager: both stores empty. -/
def new : EventQueueManager := ⟨[], []⟩

/-- `schedule(event, args=None)`: append to the FIFO tail. -/
def schedule (e : String) (a : Args) (s : EventQueueManager) :
    EventQueueManager :=
  { s with events := s.events ++ [(e, a)] }

/-- `schedule_next(event, args=None)`: prepend to the FIFO head. -/
def schedule_next (e : String) (a : Args) (s : EventQueueManager) :
    EventQueueManager :=
  { s with events := (e, a) :: s.events }

/-- `schedule_at(tstamp, event, args=None)`: `heappush` the triple onto the
timed heap. -/
def schedule_at (t : ℚ) (e : String) (a : Args) (s : EventQueueManager) :
    EventQueueManager :=
  { s with events_at := heappush s.events_at (t, e, a) }

/-- Lines 305–310 of `next()`: the fall-through after the timed-heap check.
`len1` is the length of `events_at` computed at the top of `next()`. -/
def nextSeq (len1 : Nat) (s : EventQueueManager) :
    Except Unit ((Option String × Args) × EventQueueManager) :=
  match s.events with
  | ea :: rest => .ok ((some ea.1, ea.2), { s with events := rest })
  | [] =>
    if len1 = 0 then .error ()
    else .ok ((none, none), s)

/-- `next()`: pop the heap root if it is due, else pop the FIFO head, else
raise `QueueEmptyException` (modelled by `.error ()`) when both stores are
empty, else return the `(None, None)` placeholder.  `now` stands for the
`time.time()` call. -/
def next (now : ℚ) (s : EventQueueManager) :
    Except Unit ((Option String × Args) × EventQueueManager) :=
  let len1 := s.events_at.length
  if len1 ≠ 0 ∧ (s.events_at.headD dfltT).1 ≤ now then
    let p := heappop s.events_at
    .ok ((some p.1.2.1, p.1.2.2), { s with events_at := p.2 })
  else
    nextSeq len1 s

/-- `count()`: total number of scheduled events. -/
def count (s : EventQueueManager) : Nat :=
  s.events_at.length + s.events.length

end EventQueueManager

/-! ### Statistics derivation (`calc_statistics`, `get_statistics`)

A Python statistics tree is either a numeric counter (an `int`) or a dict
mapping keys to subtrees; dicts preserve insertion order and are modelled
as ordered association chains.  Python's float divisions are modelled over
`ℚ`; a `ZeroDivisionError` (or a `TypeError`/`AttributeError` from mixing
a counter with a dict) is modelled by `.error ()`. -/

/-- A tree of counters: `num v` is an integer counter, `dnil`/`dcons` build
an insertion-ordered dict. -/
inductive Stats where
  | num (v : ℤ)
  | dnil
  | dcons (k : String) (v : Stats) (rest : Stats)
deriving Repr, DecidableEq

/-- The result tree of `calc_statistics`: `leaf` is the per-counter record
`{cnt, inc, spd, pct}`, `rnil`/`rcons` build the enclosing dicts. -/
inductive StatRec where
  | leaf (cnt inc : ℤ) (spd pct : ℚ)
  | rnil
  | rcons (k : String) (v : StatRec) (rest : StatRec)
deriving Repr, DecidableEq

/-- Python `stats_prev.get(key)` (without default): `.ok none` when the key
is absent, `.error ()` when `stats_prev` is not a dict (calling `.get` on
an `int` raises `AttributeError`). -/
def dictGet : Stats → String → Except Unit (Option Stats)
  | .num _, _ => .error ()
  | .dnil, _ => .ok none
  | .dcons k v rest, key => if k = key then .ok (some v) else dictGet rest key

/-- `calc_statistics(stats_cur, stats_prev, tdiff)`: derive, per counter of
`stats_cur`, the record
`{cnt = b, inc = b − a, spd = (b − a)/tdiff, pct = (b − a)/(b/100)}` where
`a` is `stats_prev.get(key, 0)`, recursing into dict-valued keys with
`stats_prev.get(key, {})`.  `.error ()` models the exceptions Python would
raise: `ZeroDivisionError` in `spd` when `tdiff = 0`, `ZeroDivisionError`
in `pct` when the current counter is `0`, and type errors when a counter
meets a dict.  The `num` case models iterating over a non-dict (a
`TypeError` in Python; unreachable from `get_statistics`). -/
def calc_statistics : Stats → Stats → ℚ → Except Unit StatRec
  | .num _, _, _ => .error ()
  | .dnil, _, _ => .ok .rnil
  | .dcons key (.num b) rest, prev, tdiff =>
    Except.bind
      (match dictGet prev key with
       | .error _ => Except.error ()
       | .ok none => Except.ok (0 : ℤ)
       | .ok (some (.num a)) => Except.ok a
       | .ok (some _) => Except.error ())
      (fun a =>
      if tdiff = 0 then .error ()
      else if b = 0 then .error ()
      else (calc_statistics rest prev tdiff).map (fun r =>
        .rcons key (.leaf b (b - a) (((b : ℚ) - (a : ℚ)) / tdiff)
          (((b : ℚ) - (a : ℚ)) / ((b : ℚ) / 100))) r))
  | .dcons key v rest, prev, tdiff =>
    (dictGet prev key).bind (fun pv =>
      (calc_statistics v (pv.getD .dnil) tdiff).bind (fun sub =>
        (calc_statistics rest prev tdiff).map (fun r => .rcons key sub r)))

/-- `ZenDaemonComponent.get_statistics()`: derive the statistics from the
current counters, the previous snapshot and the elapsed time, then copy the
current counters over the previous snapshot and reset the timestamp. -/
def get_statistics (cur prev : Stats) (ts curts : ℚ) :
    Except Unit (StatRec × Stats × ℚ) :=
  (calc_statistics cur prev (curts - ts)).map (fun stats => (stats, cur, curts))

/-! ### Event dispatch and the event loop (`ZenDaemon._event_loop`)

Handlers are identified by values of a type `H`; the behaviour of one
Python call `handler(self, args)` is supplied as a function
`exec : H → List H → Args → Nat × Args × List H` giving the returned
`(flag, args)` pair together with the (possibly mutated) handler list of
the dispatched event — `_init_event_callback` appends or prepends to that
list in place, so a handler can change it mid-dispatch.  Other effects of a
handler on the engine are outside this model; none of the claims below
involve them.

The `for handler in self.callbacks[event]` loop uses a CPython list
iterator: it reads the element at the current index of the *live* list and
then advances the index.  `dispatchLoop` transcribes that; the structural
`fuel` argument is only needed because a handler that keeps appending could
make the Python loop run forever, and every theorem below supplies enough
fuel for the runs it describes. -/

/-- `ZenDaemon.FLAG_CONTINUE`. -/
def FLAG_CONTINUE : Nat := 1

/-- `ZenDaemon.FLAG_STOP`. -/
def FLAG_STOP : Nat := 0

/-- The dispatch loop over the handler list of one event, starting at list
index `i`: read `chain[i]`, call the handler, `break` unless the returned
flag equals `FLAG_CONTINUE`, else advance to `i+1`.  Returns the final
`args`, the final handler list, and the trace of performed calls as
`(handler, args-in, flag, args-out)` tuples. -/
def dispatchLoop (exec : H → List H → Args → Nat × Args × List H) :
    Nat → Nat → List H → Args → Args × List H × List (H × Args × Nat × Args)
  | 0, _, chain, args => (args, chain, [])
  | fuel + 1, i, chain, args =>
    if h : i < chain.length then
      let handler := chain.get ⟨i, h⟩
      let r := exec handler chain args
      if r.1 ≠ FLAG_CONTINUE then
        (r.2.1, r.2.2, [(handler, args, r.1, r.2.1)])
      else
        let rest := dispatchLoop exec fuel (i + 1) r.2.2 r.2.1
        (rest.1, rest.2.1, (handler, args, r.1, r.2.1) :: rest.2.2)
    else
      (args, chain, [])

/-- Sequential-chain description of §4.2 of the specification: handlers run
left to right, each receives the args returned by its predecessor, and the
chain stops after the first handler whose flag is not `FLAG_CONTINUE`.
Returns the final args and the trace of calls.  This is the spec-side
description against which the code's `dispatchLoop` is compared. -/
def chainRun (f : H → Args → Nat × Args) :
    List H → Args → Args × List (H × Args × Nat × Args)
  | [], a => (a, [])
  | h :: t, a =>
    let r := f h a
    if r.1 ≠ FLAG_CONTINUE then (r.2, [(h, a, r.1, r.2)])
    else
      let rest := chainRun f t r.2
      (rest.1, (h, a, r.1, r.2) :: rest.2)

/-- A handler behaviour that neither consults nor mutates the registry:
`handler(self, args)` just computes `(flag, args')` from `args`. -/
def pureExec (f : H → Args → Nat × Args) :
    H → List H → Args → Nat × Args × List H :=
  fun h c a => ((f h a).1, (f h a).2, c)

/-- The state of the engine visible to the event loop: the queue, the
callback registry (`self.callbacks`, an insertion-ordered dict from event
name to handler list), the `flag_done` flag and the log. -/
structure DaemonState (H : Type) where
  queue : EventQueueManager
  callbacks : List (String × List H)
  flag_done : Bool
  log : List String
deriving DecidableEq

/-- Registry lookup, `event in self.callbacks` / `self.callbacks[event]`. -/
def cbsGet (cbs : List (String × List H)) (e : String) : Option (List H) :=
  match cbs with
  | [] => none
  | (k, hs) :: rest => if k = e then some hs else cbsGet rest e

/-- Store back the (possibly mutated) handler list of an event. -/
def cbsSet (cbs : List (String × List H)) (e : String) (hs : List H) :
    List (String × List H) :=
  match cbs with
  | [] => []
  | (k, old) :: rest =>
    if k = e then (k, hs) :: rest else (k, old) :: cbsSet rest e hs

/-- One iteration of the `while not self.flag_done` body of `_event_loop`:
fetch the next event; on `QueueEmptyException` log and set `flag_done`;
then test the dequeued event with Python truthiness (`if event:`) — `None`
and the empty string are falsy, any other string truthy.  On a truthy event
with no registered callback raise `ZenDaemonException` (modelled as
`.error` carrying the formatted message); on a truthy event with callbacks
run its handler chain; on a falsy event (the `(None, None)` placeholder, or
an empty-string event name) compute the wait time and sleep (no effect on
the modelled state). -/
def eventLoopIter (exec : H → List H → Args → Nat × Args × List H)
    (dfuel : Nat) (now : ℚ) (st : DaemonState H) :
    Except String (DaemonState H) :=
  match EventQueueManager.next now st.queue with
  | .error _ =>
    .ok { st with flag_done := true,
                  log := st.log ++ ["Event queue is empty, terminating"] }
  | .ok ((some event, args), q') =>
    if event = "" then
      .ok { st with queue := q' }
    else
      match cbsGet st.callbacks event with
      | none => .error ("There is no callback to handle event '" ++ event ++ "'")
      | some chain =>
        let r := dispatchLoop exec dfuel 0 chain args
        .ok { st with queue := q', callbacks := cbsSet st.callbacks event r.2.1 }
  | .ok ((none, _), q') => .ok { st with queue := q' }

/-- The `while not self.flag_done` loop, driven by `fuel` remaining
iterations and a time source `now` giving the value of `time.time()` at
each iteration. -/
def eventLoopGo (exec : H → List H → Args → Nat × Args × List H)
    (dfuel : Nat) (now : Nat → ℚ) :
    Nat → Nat → DaemonState H → Except String (DaemonState H)
  | 0, _, st => .ok st
  | fuel + 1, k, st =>
    if st.flag_done then .ok st
    else
      match eventLoopIter exec dfuel (now k) st with
      | .error e => .error e
      | .ok st' => eventLoopGo exec dfuel now fuel (k + 1) st'

/-- `ZenDaemon._event_loop`: reset `flag_done` to `False`, then loop. -/
def event_loop (exec : H → List H → Args → Nat × Args × List H)
    (dfuel : Nat) (now : Nat → ℚ) (fuel : Nat) (st : DaemonState H) :
    Except String (DaemonState H) :=
  eventLoopGo exec dfuel now fuel 0 { st with flag_done := false }

/-! ### Parallel-mode file naming (`_get_fn_pidfile`, `_get_fn_state`,
`_pidfiles_list`)

Paths are Python strings.  `re.sub(r'\.pid$', repl, path)` replaces a
literal `.pid` suffix (the model ignores the `$`-before-final-newline
quirk of Python regexes, irrelevant for file paths).  `glob.glob` is
modelled against an explicit directory listing `entries` of the run
directory; `sorted` is modelled by the stable `List.mergeSort` — Python's
sort is also stable, and a stable sort's output is uniquely determined by
the comparison. -/

/-- Python `"{:05d}".format(n)`: decimal digits, left-padded with zeros to
at least five characters. -/
def pad5 (n : Nat) : String :=
  let s := toString n
  if s.length < 5 then ⟨List.replicate (5 - s.length) '0'⟩ ++ s else s

/-- Model of `re.sub(pat ++ '$', repl, s)` for a literal pattern: if `s`
ends with `pat`, replace that suffix by `repl`, else return `s`
unchanged. -/
def reSubSuffix (pat repl s : String) : String :=
  if pat.data.isSuffixOf s.data then
    ⟨s.data.take (s.data.length - pat.data.length) ++ repl.data⟩
  else s

/-- `ZenDaemon._get_fn_pidfile`: with the `paralel` flag unset return the
configured `pid_file`; otherwise insert the zero-padded five-digit PID
before the `.pid` extension. -/
def get_fn_pidfile (paralel : Bool) (pid_file : String) (pid : Nat) : String :=
  if !paralel then pid_file
  else reSubSuffix ".pid" ("." ++ pad5 pid ++ ".pid") pid_file

/-- `ZenDaemon._get_fn_state`: as `_get_fn_pidfile`, for the `.state`
extension. -/
def get_fn_state (paralel : Bool) (state_file : String) (pid : Nat) : String :=
  if !paralel then state_file
  else reSubSuffix ".state" ("." ++ pad5 pid ++ ".state") state_file

/-- Whether a directory entry matches the glob pattern `name*.pid`:
it starts with `name`, ends with `.pid`, is long enough that the two parts
do not overlap, and — per the glob hidden-file rule, which only matters
when `name` is empty and the pattern therefore starts with `*` — does not
start with a dot in that case. -/
def globPidMatch (name fname : String) : Bool :=
  name.data.isPrefixOf fname.data && ".pid".data.isSuffixOf fname.data &&
    decide (name.data.length + 4 ≤ fname.data.length) &&
    !(decide (name.data = []) &&
      (match fname.data with | '.' :: _ => true | _ => false))

/-- `ZenDaemon._pidfiles_list`: glob `run/name*.pid` over the entries of
the run directory and sort ascending (descending when `reverse`).  Python's
`sorted(…)` uses `<` comparisons and is stable; `reverse=True` sorts as if
each comparison were reversed. -/
def pidfiles_list (entries : List String) (run name : String)
    (reverse : Bool) : List String :=
  let matched :=
    (entries.filter (fun f => globPidMatch name f)).map
      (fun f => run ++ "/" ++ f)
  if reverse then matched.mergeSort (fun a b => !pyStrLt a b)
  else matched.mergeSort (fun a b => !pyStrLt b a)

/-! ### Test harness -/

/-- Call `schedule` once for each `(event, args)` pair, left to right. -/
def scheduleAll (es : List (String × Args)) (s : EventQueueManager) :
    EventQueueManager :=
  es.foldl (fun s ea => EventQueueManager.schedule ea.1 ea.2 s) s

/-- Call `next()` repeatedly (at a fixed current time), collecting the
returned `(event, args)` pairs until `k` calls were made or the queue
raised. -/
def drain (now : ℚ) : Nat → EventQueueManager → List (Option String × Args)
  | 0, _ => []
  | k + 1, s =>
    match EventQueueManager.next now s with
    | .ok (r, s') => r :: drain now k s'
    | .error _ => []

end Pyzenkit

namespace Pyzenkit

/-- Auxiliary: `heappop` of a non-empty heap returns the element at index 0
(the heap root) as its first component. -/
theorem heappop_fst (x : TEntry) (t : List TEntry) : (heappop (x :: t)).1 = x := by
  cases t <;> rfl

/-- Auxiliary: closed-form description of the `next()` policy, shared by the
claim theorems below. -/
theorem next_unfold (now : ℚ) (s : EventQueueManager) :
    EventQueueManager.next now s =
      if s.events_at ≠ [] ∧ (s.events_at.headD dfltT).1 ≤ now then
        .ok ((some (s.events_at.headD dfltT).2.1, (s.events_at.headD dfltT).2.2),
          { s with events_at := (heappop s.events_at).2 })
      else if s.events ≠ [] then
        .ok ((some (s.events.headD ("", none)).1, (s.events.headD ("", none)).2),
          { s with events := s.events.tail })
      else if s.events_at = [] ∧ s.events = [] then .error ()
      else .ok ((none, none), s) := by
  rcases s with ⟨ev, ea⟩
  cases ea with
  | nil =>
    cases ev with
    | nil => simp [EventQueueManager.next, EventQueueManager.nextSeq]
    | cons e r => simp [EventQueueManager.next, EventQueueManager.nextSeq]
  | cons x t =>
    by_cases hdue : x.1 ≤ now
    · simp [EventQueueManager.next, EventQueueManager.nextSeq, hdue, heappop_fst]
    · cases ev with
      | nil => simp [EventQueueManager.next, EventQueueManager.nextSeq, hdue]
      | cons e r => simp [EventQueueManager.next, EventQueueManager.nextSeq, hdue]

end Pyzenkit

namespace Pyzenkit

theorem scheduleAll_app (es : List (String × Args)) (l : List (String × Args)) :
    scheduleAll es ⟨l, []⟩ = ⟨l ++ es, []⟩ := by
  induction es generalizing l with
  | nil => simp [scheduleAll]
  | cons e r ih =>
    show scheduleAll r ⟨l ++ [e], []⟩ = _
    rw [ih]
    simp

theorem drain_fifo (now : ℚ) (es : List (String × Args)) :
    drain now es.length ⟨es, []⟩ = es.map (fun ea => (some ea.1, ea.2)) := by
  induction es with
  | nil => rfl
  | cons e r ih =>
    show drain now (r.length + 1) ⟨e :: r, []⟩ = _
    simp [drain, EventQueueManager.next, EventQueueManager.nextSeq, ih]

/-- C2: for any sequence of `schedule(e₁), …, schedule(eₙ)` calls with no
timed entries, successive `next()` calls return `e₁, …, eₙ` in exactly that
order; and a `schedule_next(e)` call on a state with no timed entries and a
non-empty FIFO makes `e` the event returned by the very next `next()`
call. -/
theorem claim_C2 (es : List (String × Args)) (now : ℚ) (e : String) (a : Args)
    (s : EventQueueManager) (hheap : s.events_at = []) (hne : s.events ≠ []) :
    drain now es.length (scheduleAll es .new) = es.map (fun ea => (some ea.1, ea.2))
    ∧ EventQueueManager.next now (EventQueueManager.schedule_next e a s) =
        .ok ((some e, a), s) := by
  constructor
  · rw [show (EventQueueManager.new) = (⟨[], []⟩ : EventQueueManager) from rfl,
      scheduleAll_app]
    simpa using drain_fifo now es
  · rcases s with ⟨ev, ea⟩
    simp only at hheap
    subst hheap
    simp [EventQueueManager.next, EventQueueManager.nextSeq,
      EventQueueManager.schedule_next]

/-- Witness for C2 at a concrete two-element schedule and a concrete
front-insertion. -/
theorem claim_C2_witness :
    drain 0 2 (scheduleAll [("e1", none), ("e2", none)] .new) =
      [(some "e1", none), (some "e2", none)]
    ∧ EventQueueManager.next 0
        (EventQueueManager.schedule_next "x" none ⟨[("y", none)], []⟩) =
        .ok ((some "x", none), ⟨[("y", none)], []⟩) := by
  have h := claim_C2 [("e1", none), ("e2", none)] 0 "x" none
    ⟨[("y", none)], []⟩ rfl (by simp)
  exact ⟨h.1, h.2⟩

end Pyzenkit

namespace Pyzenkit

theorem lexLt_irrefl (as : List Char) : lexLt as as = false := by
  induction as with
  | nil => rfl
  | cons a t ih => simp [lexLt, ih]

theorem lexLt_asymm : ∀ as bs : List Char,
    lexLt as bs = true → lexLt bs as = false := by
  intro as
  induction as with
  | nil =>
    intro bs h
    cases bs with
    | nil => exact absurd h (by simp [lexLt])
    | cons b bt => rfl
  | cons a at' ih =>
    intro bs h
    cases bs with
    | nil => exact absurd h (by simp [lexLt])
    | cons b bt =>
      simp [lexLt] at h ⊢
      rcases h with h | ⟨he, ht⟩
      · constructor
        · exact le_of_lt h
        · intro hba
          exact absurd h (by simp [hba])
      · subst he
        exact ⟨le_refl a, fun _ => ih bt ht⟩

theorem lexLt_ne : ∀ as bs : List Char, lexLt as bs = true → as ≠ bs := by
  intro as bs h he
  subst he
  rw [lexLt_irrefl] at h
  exact Bool.false_ne_true h

theorem lexLt_trans : ∀ as bs cs : List Char,
    lexLt as bs = true → lexLt bs cs = true → lexLt as cs = true := by
  intro as
  induction as with
  | nil =>
    intro bs cs h1 h2
    cases bs with
    | nil => exact h2
    | cons b bt =>
      cases cs with
      | nil => exact absurd h2 (by simp [lexLt])
      | cons c ct => rfl
  | cons a at' ih =>
    intro bs cs h1 h2
    cases bs with
    | nil => exact absurd h1 (by simp [lexLt])
    | cons b bt =>
      cases cs with
      | nil => exact absurd h2 (by simp [lexLt])
      | cons c ct =>
        simp [lexLt] at h1 h2 ⊢
        rcases h1 with h1 | ⟨he1, ht1⟩
        · rcases h2 with h2 | ⟨he2, ht2⟩
          · exact Or.inl (lt_trans h1 h2)
          · exact Or.inl (he2 ▸ h1)
        · rcases h2 with h2 | ⟨he2, ht2⟩
          · exact Or.inl (he1 ▸ h2)
          · exact Or.inr ⟨he1.trans he2, ih bt ct ht1 ht2⟩

theorem lexLt_connex : ∀ as bs : List Char,
    lexLt as bs = false → lexLt bs as = false → as = bs := by
  intro as
  induction as with
  | nil =>
    intro bs h1 _
    cases bs with
    | nil => rfl
    | cons b bt => exact absurd h1 (by simp [lexLt])
  | cons a at' ih =>
    intro bs h1 h2
    cases bs with
    | nil => exact absurd h2 (by simp [lexLt])
    | cons b bt =>
      simp [lexLt] at h1 h2
      rcases lt_trichotomy a b with h | h | h
      · exact absurd h1.1 (not_le_of_lt h)
      · subst h
        rw [ih bt (h1.2 rfl) (h2.2 rfl)]
      · exact absurd h2.1 (not_le_of_lt h)

theorem heappop_two (x y : TEntry) : heappop [x, y] = (x, [y]) := rfl

theorem heappush_one (x y : TEntry) :
    heappush [x] y = if entryLt y x then [y, x] else [x, y] := by
  by_cases h : entryLt y x <;> simp [heappush, siftdown, siftdownGo, h]

end Pyzenkit

namespace Pyzenkit

theorem heappush_nil (x : TEntry) : heappush [] x = [x] := rfl

theorem entryLt_tie_lt (t : ℚ) (e1 e2 : String) (a : Args)
    (h : pyStrLt e1 e2 = true) : entryLt (t, e1, a) (t, e2, a) = true := by
  simp [entryLt, h]

theorem entryLt_tie_gt (t : ℚ) (e1 e2 : String) (a : Args)
    (h : pyStrLt e1 e2 = true) : entryLt (t, e2, a) (t, e1, a) = false := by
  have hne : e2 ≠ e1 := by
    intro he
    exact lexLt_ne e1.data e2.data h (by rw [he])
  simp [entryLt, pyStrLt, lexLt_asymm _ _ h, hne]

/-- C3 counterexample: `schedule_at(10, "b")` then `schedule_at(10, "a")` —
two timed entries with equal due time — makes `next()` (at time 10) return
`"a"`, the entry scheduled second, not the first-scheduled `"b"` that the
claim requires: ties are broken by the heap's tuple comparison (event name),
not by insertion order. -/
theorem claim_C3_cex :
    EventQueueManager.next 10 (EventQueueManager.schedule_at 10 "a" none
      (EventQueueManager.schedule_at 10 "b" none .new)) =
      .ok ((some "a", none), ⟨[], [(10, "b", none)]⟩)
    ∧ ¬ ∃ s' : EventQueueManager,
        EventQueueManager.next 10 (EventQueueManager.schedule_at 10 "a" none
          (EventQueueManager.schedule_at 10 "b" none .new)) =
          .ok ((some "b", none), s') := by
  refine ⟨by decide, ?_⟩
  rintro ⟨s', hs⟩
  rw [show EventQueueManager.next 10 (EventQueueManager.schedule_at 10 "a" none
    (EventQueueManager.schedule_at 10 "b" none .new)) =
    .ok ((some "a", none), ⟨[], [(10, "b", none)]⟩) by decide] at hs
  simp at hs

/-- C3 amended: two timed entries with equal `due_time` are returned in
ascending order of the remaining tuple components (the event name, compared
as a Python string), regardless of insertion order — here stated for the
two entries with distinct event names in both insertion orders. -/
theorem claim_C3_amended (t now : ℚ) (e1 e2 : String) (a : Args)
    (hlt : pyStrLt e1 e2 = true) (hdue : t ≤ now) :
    EventQueueManager.next now (EventQueueManager.schedule_at t e2 a
      (EventQueueManager.schedule_at t e1 a .new)) =
      .ok ((some e1, a), ⟨[], [(t, e2, a)]⟩)
    ∧ EventQueueManager.next now (EventQueueManager.schedule_at t e1 a
      (EventQueueManager.schedule_at t e2 a .new)) =
      .ok ((some e1, a), ⟨[], [(t, e2, a)]⟩) := by
  have hA : EventQueueManager.schedule_at t e2 a
      (EventQueueManager.schedule_at t e1 a .new) =
      ⟨[], [(t, e1, a), (t, e2, a)]⟩ := by
    simp [EventQueueManager.schedule_at, EventQueueManager.new, heappush_nil,
      heappush_one, entryLt_tie_gt t e1 e2 a hlt]
  have hB : EventQueueManager.schedule_at t e1 a
      (EventQueueManager.schedule_at t e2 a .new) =
      ⟨[], [(t, e1, a), (t, e2, a)]⟩ := by
    simp [EventQueueManager.schedule_at, EventQueueManager.new, heappush_nil,
      heappush_one, entryLt_tie_lt t e1 e2 a hlt]
  rw [hA, hB]
  rw [next_unfold]
  simp [hdue, heappop_two]

/-- Witness for the amended C3 at `t = now = 10`, events `"a" < "b"`. -/
theorem claim_C3_amended_witness :
    EventQueueManager.next 10 (EventQueueManager.schedule_at 10 "b" none
      (EventQueueManager.schedule_at 10 "a" none .new)) =
      .ok ((some "a", none), ⟨[], [(10, "b", none)]⟩)
    ∧ EventQueueManager.next 10 (EventQueueManager.schedule_at 10 "a" none
      (EventQueueManager.schedule_at 10 "b" none .new)) =
      .ok ((some "a", none), ⟨[], [(10, "b", none)]⟩) :=
  claim_C3_amended 10 10 "a" "b" none (by decide) (by decide)

end Pyzenkit

namespace Pyzenkit

theorem get_append_len {H : Type} (pre : List H) (h : H) (t : List H)
    (hi : pre.length < (pre ++ h :: t).length) :
    (pre ++ h :: t).get ⟨pre.length, hi⟩ = h := by
  rw [List.get_eq_getElem, List.getElem_append_right (Nat.le_refl _)]
  simp

theorem dispatch_pure {H : Type} (f : H → Args → Nat × Args) :
    ∀ (post pre : List H) (a : Args) (fuel : Nat), post.length ≤ fuel →
      dispatchLoop (pureExec f) fuel pre.length (pre ++ post) a =
        ((chainRun f post a).1, pre ++ post, (chainRun f post a).2) := by
  intro post
  induction post with
  | nil =>
    intro pre a fuel _
    cases fuel with
    | zero => simp [dispatchLoop, chainRun]
    | succ g =>
      simp [dispatchLoop, chainRun]
  | cons h tpost ih =>
    intro pre a fuel hfuel
    cases fuel with
    | zero => exact absurd hfuel (by simp)
    | succ g =>
      have hi : pre.length < (pre ++ h :: tpost).length := by
        simp
      rw [dispatchLoop]
      rw [dif_pos hi, get_append_len pre h tpost hi]
      show (if ((f h a).1, (f h a).2, pre ++ h :: tpost).1 ≠ FLAG_CONTINUE then _
        else _) = _
      by_cases hf : (f h a).1 = FLAG_CONTINUE
      · rw [if_neg (by simpa using hf)]
        have hlen : pre.length + 1 = (pre ++ [h]).length := by simp
        have hch : pre ++ h :: tpost = (pre ++ [h]) ++ tpost := by simp
        have := ih (pre ++ [h]) (f h a).2 g (by simpa using hfuel)
        rw [chainRun]
        simp only [pureExec]
        rw [hlen, hch, this]
        simp [hf]
      · rw [if_pos (by simpa using hf)]
        rw [chainRun]
        simp [hf, pureExec]

theorem chainRun_trace_fst {H : Type} (f : H → Args → Nat × Args) :
    ∀ (hs : List H) (a : Args),
      ((chainRun f hs a).2).map (fun x => x.1) =
        hs.take ((chainRun f hs a).2).length := by
  intro hs
  induction hs with
  | nil => intro a; rfl
  | cons h t ih =>
    intro a
    rw [chainRun]
    by_cases hf : (f h a).1 = FLAG_CONTINUE
    · simp only [hf, ne_eq, not_true_eq_false, if_false, ite_false]
      simp [ih]
    · simp [hf]

theorem chainRun_head_argsIn {H : Type} (f : H → Args → Nat × Args)
    (hs : List H) (a : Args) (e : H × Args × Nat × Args)
    (h0 : (chainRun f hs a).2[0]? = some e) : e.2.1 = a := by
  cases hs with
  | nil => simp [chainRun] at h0
  | cons h t =>
    simp only [chainRun] at h0
    by_cases hf : (f h a).1 = FLAG_CONTINUE <;> simp [hf] at h0 <;>
      simp [← h0]

theorem chainRun_thread {H : Type} (f : H → Args → Nat × Args) :
    ∀ (hs : List H) (a : Args) (i : Nat) (e e' : H × Args × Nat × Args),
      (chainRun f hs a).2[i]? = some e →
      (chainRun f hs a).2[i + 1]? = some e' →
      e'.2.1 = e.2.2.2 := by
  intro hs
  induction hs with
  | nil => intro a i e e' h1 _; simp [chainRun] at h1
  | cons h t ih =>
    intro a i e e' h1 h2
    simp only [chainRun] at h1 h2
    by_cases hf : (f h a).1 = FLAG_CONTINUE
    · simp only [hf, ne_eq, not_true_eq_false, if_false, ite_false] at h1 h2
      cases i with
      | zero =>
        simp only [List.getElem?_cons_zero, Option.some.injEq] at h1
        simp only [List.getElem?_cons_succ] at h2
        rw [chainRun_head_argsIn f t (f h a).2 e' h2, ← h1]
      | succ j =>
        simp only [List.getElem?_cons_succ] at h1 h2
        exact ih (f h a).2 j e e' h1 h2
    · simp only [hf, ne_eq, not_false_eq_true, if_true, ite_true] at h1 h2
      cases i with
      | zero => simp at h2
      | succ j => simp at h1

theorem chainRun_stop_last {H : Type} (f : H → Args → Nat × Args) :
    ∀ (hs : List H) (a : Args) (i : Nat) (e : H × Args × Nat × Args),
      (chainRun f hs a).2[i]? = some e → e.2.2.1 ≠ FLAG_CONTINUE →
      (chainRun f hs a).2.length = i + 1 := by
  intro hs
  induction hs with
  | nil => intro a i e h1 _; simp [chainRun] at h1
  | cons h t ih =>
    intro a i e h1 hstop
    simp only [chainRun] at h1 ⊢
    by_cases hf : (f h a).1 = FLAG_CONTINUE
    · simp only [hf, ne_eq, not_true_eq_false, if_false, ite_false] at h1 ⊢
      cases i with
      | zero =>
        simp only [List.getElem?_cons_zero, Option.some.injEq] at h1
        exact absurd (by rw [← h1]) hstop
      | succ j =>
        simp only [List.getElem?_cons_succ] at h1
        simp [ih (f h a).2 j e h1 hstop]
    · simp only [hf, ne_eq, not_false_eq_true, if_true, ite_true] at h1 ⊢
      cases i with
      | zero => simp at h1; simp
      | succ j => simp at h1

end Pyzenkit

namespace Pyzenkit

/-- C4: dispatching a handler chain `[h₁, …, hₙ]` (with handlers that do
not mutate the registry) runs the handlers in chain order — the loop over
the live list equals the sequential `chainRun` description; the invoked
handlers form a prefix of the chain in order; each call's input args are
the previous call's output args; and a call whose flag is not
`FLAG_CONTINUE` is the last call of the dispatch. -/
theorem claim_C4 {H : Type} (f : H → Args → Nat × Args) (hs : List H) (a : Args) :
    dispatchLoop (pureExec f) hs.length 0 hs a =
      ((chainRun f hs a).1, hs, (chainRun f hs a).2)
    ∧ ((dispatchLoop (pureExec f) hs.length 0 hs a).2.2).map (fun x => x.1) =
        hs.take ((dispatchLoop (pureExec f) hs.length 0 hs a).2.2).length
    ∧ (∀ (i : Nat) (e e' : H × Args × Nat × Args),
        (dispatchLoop (pureExec f) hs.length 0 hs a).2.2[i]? = some e →
        (dispatchLoop (pureExec f) hs.length 0 hs a).2.2[i + 1]? = some e' →
        e'.2.1 = e.2.2.2)
    ∧ (∀ (i : Nat) (e : H × Args × Nat × Args),
        (dispatchLoop (pureExec f) hs.length 0 hs a).2.2[i]? = some e →
        e.2.2.1 ≠ FLAG_CONTINUE →
        (dispatchLoop (pureExec f) hs.length 0 hs a).2.2.length = i + 1) := by
  have hd : dispatchLoop (pureExec f) hs.length 0 hs a =
      ((chainRun f hs a).1, hs, (chainRun f hs a).2) := by
    simpa using dispatch_pure f hs [] a hs.length (Nat.le_refl _)
  rw [hd]
  exact ⟨rfl, chainRun_trace_fst f hs a, chainRun_thread f hs a,
    chainRun_stop_last f hs a⟩

/-- Witness for C4: in the chain `[1, 2, 3]` where handler `1` returns
`FLAG_STOP`, exactly one handler is invoked. -/
theorem claim_C4_witness :
    (dispatchLoop (pureExec (fun (h : Nat) (a : Args) =>
      (if h = 1 then FLAG_STOP else FLAG_CONTINUE, a))) 3 0 [1, 2, 3]
        none).2.2.length = 1 :=
  (claim_C4 (fun (h : Nat) (a : Args) =>
      (if h = 1 then FLAG_STOP else FLAG_CONTINUE, a)) [1, 2, 3] none).2.2.2
    0 (1, none, FLAG_STOP, none) (by decide) (by decide)

/-- C5 counterexample: a chain `[0]` whose only handler appends handler `1`
for the same event (as `_init_event_callback` does, mutating the registered
list in place) leads to `1` being invoked in the same dispatch, although
`1` was not in the handler list when the dispatch began — the handler list
is not captured before iteration. -/
theorem claim_C5_cex :
    ((dispatchLoop (fun (h : Nat) c a =>
        (FLAG_CONTINUE, a, if h = 0 then c ++ [1] else c)) 3 0 [0] none).2.2).map
      (fun x => x.1) = [0, 1]
    ∧ (1 : Nat) ∉ ([0] : List Nat) := by
  refine ⟨by decide, by decide⟩

/-- C5 amended: the registry is consulted once (the list object is fetched
once), but iteration is over the live list: for any handler behaviour `f`
and distinct handler ids `h₀ ≠ h₁` where `h₀` appends `h₁` to the
dispatched event's list and both return `FLAG_CONTINUE`, dispatching the
chain `[h₀]` invokes `h₀` and then the newly appended `h₁` in the same
dispatch. -/
theorem claim_C5_amended (f : Nat → Args → Nat × Args) (h0 h1 : Nat) (a : Args)
    (hne : h1 ≠ h0)
    (hc0 : (f h0 a).1 = FLAG_CONTINUE)
    (hc1 : (f h1 (f h0 a).2).1 = FLAG_CONTINUE) :
    dispatchLoop (fun h c a => ((f h a).1, (f h a).2,
        if h = h0 then c ++ [h1] else c)) 3 0 [h0] a =
      ((f h1 (f h0 a).2).2, [h0, h1],
        [(h0, a, FLAG_CONTINUE, (f h0 a).2),
         (h1, (f h0 a).2, FLAG_CONTINUE, (f h1 (f h0 a).2).2)]) := by
  rw [dispatchLoop]
  rw [dif_pos (by simp)]
  simp only [List.get_cons_zero, if_pos rfl, hc0, ne_eq, not_true_eq_false,
    ite_false, if_false]
  rw [dispatchLoop]
  rw [dif_pos (by simp)]
  simp [dispatchLoop, hne, hc0, hc1]

/-- Witness for the amended C5 with argument-preserving handlers. -/
theorem claim_C5_amended_witness :
    dispatchLoop (fun (h : Nat) c (a : Args) => (FLAG_CONTINUE, a,
        if h = 0 then c ++ [1] else c)) 3 0 [0] none =
      (none, [0, 1],
        [(0, none, FLAG_CONTINUE, none), (1, none, FLAG_CONTINUE, none)]) :=
  claim_C5_amended (fun _ a => (FLAG_CONTINUE, a)) 0 1 none (by decide) rfl rfl

end Pyzenkit

namespace Pyzenkit

/-- Auxiliary: the `while not self.flag_done` loop exits at once when the
flag is already set. -/
theorem eventLoopGo_done {H : Type} (exec : H → List H → Args → Nat × Args × List H)
    (dfuel : Nat) (now : Nat → ℚ) (fuel k : Nat) (st : DaemonState H)
    (hdone : st.flag_done = true) :
    eventLoopGo exec dfuel now fuel k st = .ok st := by
  cases fuel with
  | zero => rfl
  | succ g => simp [eventLoopGo, hdone]

/-- C7: when `next()` raises the queue-empty sentinel inside the event
loop, the loop catches it (the loop returns normally rather than
propagating the error), appends the informational note to the log, sets the
done flag to `true`, and terminates with that state for any remaining
fuel. -/
theorem claim_C7 {H : Type} (exec : H → List H → Args → Nat × Args × List H)
    (dfuel fuel : Nat) (now : Nat → ℚ) (st : DaemonState H)
    (hfuel : 0 < fuel) (hev : st.queue.events = [])
    (hat : st.queue.events_at = []) :
    event_loop exec dfuel now fuel st =
      .ok { queue := st.queue, callbacks := st.callbacks, flag_done := true,
            log := st.log ++ ["Event queue is empty, terminating"] }
    ∧ "Event queue is empty, terminating" ∈
        st.log ++ ["Event queue is empty, terminating"] := by
  have hq : st.queue = ⟨[], []⟩ := by
    rw [← hev, ← hat]
  obtain ⟨g, rfl⟩ : ∃ g, fuel = g + 1 := ⟨fuel - 1, by omega⟩
  refine ⟨?_, List.mem_append_right _ (by simp)⟩
  have hiter : eventLoopIter exec dfuel (now 0)
      { st with flag_done := false } =
      .ok { queue := st.queue, callbacks := st.callbacks, flag_done := true,
            log := st.log ++ ["Event queue is empty, terminating"] } := by
    simp [eventLoopIter, hq, EventQueueManager.next, EventQueueManager.nextSeq]
  show eventLoopGo exec dfuel now (g + 1) 0 { st with flag_done := false } = _
  rw [eventLoopGo]
  simp only [Bool.false_eq_true, if_false]
  rw [hiter]
  exact eventLoopGo_done exec dfuel now g 1 _ rfl

/-- Witness for C7 on a concrete empty-queue state. -/
theorem claim_C7_witness :
    event_loop (fun (_ : Nat) c (a : Args) => (FLAG_CONTINUE, a, c)) 1
      (fun _ => 0) 5 ⟨⟨[], []⟩, [("ev", [0])], false, ["boot"]⟩ =
      .ok ⟨⟨[], []⟩, [("ev", [0])], true,
        ["boot", "Event queue is empty, terminating"]⟩ := by
  have h := claim_C7 (fun _ c a => (FLAG_CONTINUE, a, c)) 1 5
    (fun _ => 0) (⟨⟨[], []⟩, [("ev", [0])], false, ["boot"]⟩ : DaemonState Nat)
    (by decide) rfl rfl
  exact h.1

end Pyzenkit

namespace Pyzenkit

/-- C8: for a counter with previous value `a`, current value `b` and
elapsed time `t > 0`, `calc_statistics` produces the record
`{cnt = b, inc = b − a, spd = (b − a)/t, pct = (b − a)/(b/100)}`; when
`b = 0` the `pct` computation is an error path (the division by zero
raises, modelled as `.error ()`) rather than yielding a zero fallback. -/
theorem claim_C8 (k : String) (a b : ℤ) (t : ℚ) (ht : 0 < t) :
    (b ≠ 0 →
      calc_statistics (.dcons k (.num b) .dnil) (.dcons k (.num a) .dnil) t =
        .ok (.rcons k (.leaf b (b - a) (((b : ℚ) - (a : ℚ)) / t)
          (((b : ℚ) - (a : ℚ)) / ((b : ℚ) / 100))) .rnil))
    ∧ (b = 0 →
      calc_statistics (.dcons k (.num b) .dnil) (.dcons k (.num a) .dnil) t =
        .error ()) := by
  constructor
  · intro hb
    simp [calc_statistics, dictGet, ne_of_gt ht, hb, Except.bind, Except.map]
  · intro hb
    subst hb
    simp [calc_statistics, dictGet, ne_of_gt ht, Except.bind, Except.map]

/-- Witness for C8 at `a = 2`, `b = 5`, `t = 3`, and the error path at
`b = 0`. -/
theorem claim_C8_witness :
    calc_statistics (.dcons "k" (.num 5) .dnil) (.dcons "k" (.num 2) .dnil) 3 =
      .ok (.rcons "k" (.leaf 5 (5 - 2) ((((5 : ℤ) : ℚ) - ((2 : ℤ) : ℚ)) / 3)
        ((((5 : ℤ) : ℚ) - ((2 : ℤ) : ℚ)) / (((5 : ℤ) : ℚ) / 100))) .rnil)
    ∧ calc_statistics (.dcons "k" (.num 0) .dnil) (.dcons "k" (.num 2) .dnil) 3 =
      .error () :=
  ⟨(claim_C8 "k" 2 5 3 (by decide)).1 (by decide),
   (claim_C8 "k" 2 0 3 (by decide)).2 rfl⟩

/-- C10: for a counter key present in the current tree but absent from the
previous snapshot, `calc_statistics` treats the previous value as `0`, so
the record has `inc = cnt` and `spd = cnt/Δt` (and `pct = 100`); for a
dict-valued key absent from the previous snapshot, the recursion uses the
empty previous subtree. -/
theorem claim_C10 (k : String) (b : ℤ) (rest prev d : Stats) (t : ℚ)
    (hlk : dictGet prev k = .ok none) (hb : b ≠ 0) (ht : t ≠ 0)
    (hd : ∀ v, d ≠ .num v) :
    (calc_statistics (.dcons k (.num b) rest) prev t =
      (calc_statistics rest prev t).map
        (fun r => .rcons k (.leaf b b ((b : ℚ) / t) 100) r))
    ∧ (calc_statistics (.dcons k d rest) prev t =
      (calc_statistics d .dnil t).bind (fun sub =>
        (calc_statistics rest prev t).map (fun r => .rcons k sub r))) := by
  have hbq : (b : ℚ) ≠ 0 := Int.cast_ne_zero.mpr hb
  have hpct : (b : ℚ) / ((b : ℚ) / 100) = 100 := by
    field_simp
  constructor
  · simp only [calc_statistics, hlk, Except.bind]
    rw [if_neg ht, if_neg hb]
    simp only [Int.cast_zero, sub_zero, hpct]
  · cases d with
    | num v => exact absurd rfl (hd v)
    | dnil =>
      simp only [calc_statistics, hlk, Except.bind]
    | dcons k' v' rest' =>
      simp only [calc_statistics, hlk, Except.bind, Option.getD]

/-- Witness for C10 at a leaf key and a nested subtree, both absent from
the (empty) previous snapshot. -/
theorem claim_C10_witness :
    calc_statistics (.dcons "k" (.num 5) .dnil) .dnil 2 =
      (calc_statistics .dnil .dnil 2).map
        (fun r => .rcons "k" (.leaf 5 5 (((5 : ℤ) : ℚ) / 2) 100) r)
    ∧ calc_statistics (.dcons "s" (.dcons "x" (.num 6) .dnil) .dnil) .dnil 2 =
      (calc_statistics (.dcons "x" (.num 6) .dnil) .dnil 2).bind (fun sub =>
        (calc_statistics .dnil .dnil 2).map (fun r => .rcons "s" sub r)) :=
  ⟨(claim_C10 "k" 5 .dnil .dnil (.dcons "x" (.num 6) .dnil) 2 rfl
      (by decide) (by decide) (fun v h => Stats.noConfusion h)).1,
   (claim_C10 "s" 5 .dnil .dnil (.dcons "x" (.num 6) .dnil) 2 rfl
      (by decide) (by decide) (fun v h => Stats.noConfusion h)).2⟩

end Pyzenkit

namespace Pyzenkit

/-- Auxiliary: trichotomy of the Python string order. -/
theorem lexLt_trich (as bs : List Char) :
    lexLt as bs = true ∨ as = bs ∨ lexLt bs as = true := by
  cases h1 : lexLt as bs with
  | true => exact Or.inl rfl
  | false =>
    cases h2 : lexLt bs as with
    | true => exact Or.inr (Or.inr rfl)
    | false => exact Or.inr (Or.inl (lexLt_connex as bs h1 h2))

theorem pyLeAsc_total (a b : String) : (!pyStrLt b a) || (!pyStrLt a b) := by
  cases h : pyStrLt a b with
  | false => simp [h]
  | true =>
    have := lexLt_asymm a.data b.data h
    simp [pyStrLt, this]

theorem pyLeAsc_trans (a b c : String) :
    (!pyStrLt b a) = true → (!pyStrLt c b) = true → (!pyStrLt c a) = true := by
  simp only [Bool.not_eq_true', pyStrLt]
  intro h1 h2
  cases h3 : lexLt c.data a.data with
  | false => rfl
  | true =>
    rcases lexLt_trich b.data c.data with h | h | h
    · exact absurd (lexLt_trans _ _ _ h h3) (by simp [h1])
    · rw [h] at h1
      exact absurd h3 (by simp [h1])
    · exact absurd h (by simp [h2])

theorem pyLeDesc_total (a b : String) : (!pyStrLt a b) || (!pyStrLt b a) := by
  cases h : pyStrLt b a with
  | false => simp [h]
  | true =>
    have := lexLt_asymm b.data a.data h
    simp [pyStrLt, this]

theorem pyLeDesc_trans (a b c : String) :
    (!pyStrLt a b) = true → (!pyStrLt b c) = true → (!pyStrLt a c) = true := by
  simp only [Bool.not_eq_true', pyStrLt]
  intro h1 h2
  cases h3 : lexLt a.data c.data with
  | false => rfl
  | true =>
    rcases lexLt_trich a.data b.data with h | h | h
    · exact absurd h (by simp [h1])
    · rw [← h] at h2
      exact absurd h3 (by simp [h2])
    · exact absurd (lexLt_trans _ _ _ h h3) (by simp [h2])

/-- Auxiliary: substituting a literal suffix pattern on a string that ends
with it replaces exactly that suffix. -/
theorem reSubSuffix_append (base pat repl : String) :
    reSubSuffix pat repl (base ++ pat) = base ++ repl := by
  have hdata : (base ++ pat).data = base.data ++ pat.data := rfl
  have hsuf : pat.data.isSuffixOf (base ++ pat).data = true := by
    rw [hdata]
    exact List.isSuffixOf_iff_suffix.mpr (List.suffix_append _ _)
  unfold reSubSuffix
  rw [if_pos hsuf]
  apply String.ext
  show ((base ++ pat).data.take ((base ++ pat).data.length - pat.data.length)
    ++ repl.data) = (base ++ repl).data
  rw [hdata, List.length_append, Nat.add_sub_cancel, List.take_left]
  rfl

end Pyzenkit

namespace Pyzenkit

/-- C9: with the `paralel` flag set and current PID `pid`, the resolved
PID-file and state-file paths are the configured paths with a zero-padded
5-digit PID inserted before the extension (e.g. `/run/d.pid` with PID 42
resolves to `/run/d.00042.pid`); PID-file enumeration returns exactly the
run-directory entries matching `name*.pid` (as `run/entry` paths), sorted
ascending by default and descending when `reverse` is requested. -/
theorem claim_C9 (base : String) (pid : Nat) (entries : List String)
    (run name : String) (x : String) (rev : Bool) :
    get_fn_pidfile true (base ++ ".pid") pid = base ++ "." ++ pad5 pid ++ ".pid"
    ∧ get_fn_state true (base ++ ".state") pid =
        base ++ "." ++ pad5 pid ++ ".state"
    ∧ get_fn_pidfile true "/run/d.pid" 42 = "/run/d.00042.pid"
    ∧ (x ∈ pidfiles_list entries run name rev ↔
        ∃ f, f ∈ entries ∧ globPidMatch name f = true ∧ x = run ++ "/" ++ f)
    ∧ (pidfiles_list entries run name false).Pairwise
        (fun u v => pyStrLt v u = false)
    ∧ (pidfiles_list entries run name true).Pairwise
        (fun u v => pyStrLt u v = false) := by
  refine ⟨?_, ?_, by decide, ?_, ?_, ?_⟩
  · show reSubSuffix ".pid" ("." ++ pad5 pid ++ ".pid") (base ++ ".pid") = _
    rw [reSubSuffix_append]
    rw [← String.append_assoc, ← String.append_assoc]
  · show reSubSuffix ".state" ("." ++ pad5 pid ++ ".state") (base ++ ".state") = _
    rw [reSubSuffix_append]
    rw [← String.append_assoc, ← String.append_assoc]
  · cases rev <;>
      · simp [pidfiles_list, List.mem_mergeSort, List.mem_map,
          List.mem_filter, and_assoc]
        constructor <;> rintro ⟨f, hf, hm, he⟩ <;> exact ⟨f, hf, hm, he.symm⟩
  · have hs := List.sorted_mergeSort
      (fun a b c => pyLeAsc_trans a b c) (fun a b => pyLeAsc_total a b)
      ((entries.filter (fun f => globPidMatch name f)).map
        (fun f => run ++ "/" ++ f))
    have : pidfiles_list entries run name false =
        ((entries.filter (fun f => globPidMatch name f)).map
          (fun f => run ++ "/" ++ f)).mergeSort (fun a b => !pyStrLt b a) := rfl
    rw [this]
    exact hs.imp (fun h => by simpa using h)
  · have hs := List.sorted_mergeSort
      (fun a b c => pyLeDesc_trans a b c) (fun a b => pyLeDesc_total a b)
      ((entries.filter (fun f => globPidMatch name f)).map
        (fun f => run ++ "/" ++ f))
    have : pidfiles_list entries run name true =
        ((entries.filter (fun f => globPidMatch name f)).map
          (fun f => run ++ "/" ++ f)).mergeSort (fun a b => !pyStrLt a b) := rfl
    rw [this]
    exact hs.imp (fun h => by simpa using h)

end Pyzenkit

namespace Pyzenkit

/-- C1: for every queue state, `next()` follows this policy: if the timed
heap is non-empty and its root's due time is `≤` the current time, it pops
and returns the heap root; otherwise, if the FIFO is non-empty, it pops and
returns the FIFO head; otherwise, if both stores are empty, it raises the
queue-empty sentinel (`QueueEmptyException`, modelled as `.error ()`);
otherwise (heap non-empty but nothing due, FIFO empty) it returns the
`(None, None)` placeholder. -/
theorem claim_C1 (now : ℚ) (s : EventQueueManager) :
    EventQueueManager.next now s =
      if s.events_at ≠ [] ∧ (s.events_at.headD dfltT).1 ≤ now then
        .ok ((some (s.events_at.headD dfltT).2.1, (s.events_at.headD dfltT).2.2),
          { s with events_at := (heappop s.events_at).2 })
      else if s.events ≠ [] then
        .ok ((some (s.events.headD ("", none)).1, (s.events.headD ("", none)).2),
          { s with events := s.events.tail })
      else if s.events_at = [] ∧ s.events = [] then .error ()
      else .ok ((none, none), s) :=
  next_unfold now s

/-- Witness for C9: a concrete matching entry is enumerated. -/
theorem claim_C9_witness :
    "/var/run/d.00001.pid" ∈
      pidfiles_list ["d.00002.pid", "x.txt", "d.00001.pid"] "/var/run" "d" false :=
  ((claim_C9 "" 0 ["d.00002.pid", "x.txt", "d.00001.pid"] "/var/run" "d"
      "/var/run/d.00001.pid" false).2.2.2.1).mpr
    ⟨"d.00001.pid", by decide, by decide, rfl⟩

end Pyzenkit
